import Mathlib

/-!
# go-sqs-poller: the poll / dispatch / acknowledge loop of `worker/worker.go`

The worker long-polls a queue, hands every received message to a handler in a
goroutine of its own, and deletes the messages whose handler succeeded or
reported an invalid event.

Embedding.  The queue client (`svc`), the handler (`h`) and the logger (`c.Log`)
are external collaborators.  The first two are stateful: they act on an external
world of an arbitrary type `σ` by explicit state passing.  Every call the worker
makes on a collaborator is recorded as an `Event`, together with the answer it
got.  The body of a goroutine is a tree of such calls (`Prog`), so that a
scheduler can interleave the goroutines of one batch call by call.

Scope.  The collaborators are supplied and their calls return: a nil `svc`, `h`
or `c.Log` (a call on which panics), a call that panics or blocks for ever, and
a collaborator that writes to the `Config` are not modelled.  A call is one
atomic step of the interleaving.
-/

namespace Worker

/-! ## Data model -/

/-- A non-nil Go `error` as the worker tells them apart: a value whose dynamic
type is `InvalidEventError` (worker.go 23-34), or any other error, of which only
the text of `Error()` matters. -/
inductive GoError where
  | InvalidEventError (event msg : String)
  | other (text : String)
  deriving DecidableEq, Repr

/-- A Go `error` interface value: `none` is `nil`. -/
abbrev error := Option GoError

/-- The method `Error()`; for `InvalidEventError` it is worker.go 28-30. -/
def GoError.Error : GoError → String
  | .InvalidEventError event msg => "[Invalid Event: " ++ event ++ "] " ++ msg
  | .other text => text

/-- The constructor `NewInvalidEventError` (worker.go 32-34). -/
def NewInvalidEventError (event msg : String) : GoError :=
  .InvalidEventError event msg

/-- The type assertion `_, ok := err.(InvalidEventError)` (worker.go 107). -/
def isInvalidEventError : error → Bool
  | some (.InvalidEventError _ _) => true
  | _ => false

/-- The fields of `sqs.Message` that the worker and its examples read; each is a
`*string` in Go, `none` being the nil pointer. -/
structure Message where
  MessageId : Option String
  ReceiptHandle : Option String
  Body : Option String
  deriving DecidableEq, Repr

/-- The helper `aws.StringValue`: the pointed-to string, or the empty string for nil. -/
def StringValue : Option String → String
  | some s => s
  | none => ""

/-- The request `sqs.ReceiveMessageInput` as `Start` fills it in (worker.go 57-64). -/
structure ReceiveMessageInput where
  QueueUrl : String
  MaxNumberOfMessages : Int
  MessageAttributeNames : List String
  WaitTimeSeconds : Int
  deriving DecidableEq, Repr

/-- The part of `sqs.ReceiveMessageOutput` that `Start` reads. -/
structure ReceiveMessageOutput where
  Messages : List Message
  deriving DecidableEq, Repr

/-- The request `sqs.DeleteMessageInput` as `handleMessage` fills it in (worker.go 113-116). -/
structure DeleteMessageInput where
  QueueUrl : String
  ReceiptHandle : Option String
  deriving DecidableEq, Repr

/-- What `ReceiveMessage` returns: `(resp, nil)` or `(_, err)` with `err` non-nil. -/
inductive ReceiveResult where
  | ok (resp : ReceiveMessageOutput)
  | failed (err : GoError)
  deriving DecidableEq, Repr

/-- The `Handler` interface (worker.go 19-21) over an external world `σ`: the
call returns an `error` and may change the world. -/
structure Handler (σ : Type) where
  HandleMessage : Message → σ → error × σ

/-- The adapter `HandlerFunc` (worker.go 12-16): a function used as a `Handler`. -/
def HandlerFunc {σ : Type} (f : Message → σ → error × σ) : Handler σ :=
  { HandleMessage := fun msg => f msg }

/-- The two operations of the queue client `*sqs.SQS` that the worker calls. -/
structure SQS (σ : Type) where
  ReceiveMessage : ReceiveMessageInput → σ → ReceiveResult × σ
  DeleteMessage : DeleteMessageInput → σ → error × σ

/-- The `Config` struct (worker.go 36-50).  The declaration of `LoggerIFace` is
not among the sources, so the type `L` of the supplied logger is a parameter;
the three methods return nothing, and a call on `c.Log` is recorded as an
`Event.Log`. -/
structure Config (L : Type) where
  QueueURL : String
  MaxNumberOfMessage : Int
  WaitTimeSecond : Int
  Log : L
  LoggingEnabled : Bool

/-- The three methods of the logger. -/
inductive Level where
  | Debug
  | Info
  | Error
  deriving DecidableEq, Repr

/-- What is handed to a logger method: a string, or an `error` value as such
(worker.go 69). -/
inductive LogArg where
  | str (s : String)
  | err (e : GoError)
  deriving DecidableEq, Repr

/-- One call on a collaborator, with the answer it returned. -/
inductive Event where
  | Log (l : Level) (a : LogArg)
  | ReceiveMessage (p : ReceiveMessageInput) (r : ReceiveResult)
  | HandleMessage (m : Message) (r : error)
  | DeleteMessage (p : DeleteMessageInput) (r : error)
  deriving DecidableEq, Repr

/-- The calls of one execution in the order they happened, each with the
goroutine that made it: `none` is the goroutine of `Start` and `run`, `some i`
the goroutine launched for `messages[i]`. -/
abbrev Trace := List (Option Nat × Event)

/-! ## Goroutine bodies as trees of calls -/

/-- A sequential piece of code that calls the handler, the queue client and the
logger: each node is one call and continues with the answer. -/
inductive Prog (α : Type) : Type where
  | ret (a : α)
  | HandleMessage (m : Message) (k : error → Prog α)
  | DeleteMessage (p : DeleteMessageInput) (k : error → Prog α)
  | Log (l : Level) (a : LogArg) (k : Prog α)

/-- Sequencing: run `p`, then `f` on its result. -/
def Prog.bind {α β : Type} : Prog α → (α → Prog β) → Prog β
  | .ret a, f => f a
  | .HandleMessage m k, f => .HandleMessage m (fun r => (k r).bind f)
  | .DeleteMessage p k, f => .DeleteMessage p (fun r => (k r).bind f)
  | .Log l a k, f => .Log l a (k.bind f)

/-- Whether the code has returned. -/
def Prog.isDone {α : Type} : Prog α → Bool
  | .ret _ => true
  | _ => false

/-- Lines 113-124 of `handleMessage`: the delete request, and what follows its answer. -/
def deleteAndReport {L : Type} (c : Config L) (m : Message) : Prog error :=
  .DeleteMessage { QueueUrl := c.QueueURL, ReceiptHandle := m.ReceiptHandle } fun err =>
    match err with
    | some e => .ret (some e)
    | none =>
      .Log .Debug (.str ("worker: deleted message from queue: " ++ StringValue m.ReceiptHandle))
        (.ret none)

/-- The method `Config.handleMessage` (worker.go 103-125); `svc` and `h` are
supplied when the tree is executed. -/
def handleMessage {L : Type} (c : Config L) (m : Message) : Prog error :=
  .HandleMessage m fun err =>
    match err with
    | some (.InvalidEventError event msg) =>
      .Log .Error (.str (GoError.InvalidEventError event msg).Error) (deleteAndReport c m)
    | some e => .ret (some e)
    | none => deleteAndReport c m

/-- The function literal that `run` launches for one message (worker.go 88-97). -/
def goroutine {L : Type} (c : Config L) (m : Message) : Prog Unit :=
  (handleMessage c m).bind fun err =>
    match err with
    | some e => if c.LoggingEnabled then .Log .Error (.str e.Error) (.ret ()) else .ret ()
    | none => .ret ()

/-! ## Execution -/

section Exec
variable {σ : Type}

/-- One call of a tree against the world: the event, the rest of the tree and
the new world; `none` when the code has returned. -/
def Prog.step {α : Type} (svc : SQS σ) (h : Handler σ) :
    Prog α → σ → Option (Event × Prog α × σ)
  | .ret _, _ => none
  | .HandleMessage m k, s =>
    let r := h.HandleMessage m s
    some (.HandleMessage m r.1, k r.1, r.2)
  | .DeleteMessage p k, s =>
    let r := svc.DeleteMessage p s
    some (.DeleteMessage p r.1, k r.1, r.2)
  | .Log l a k, s => some (.Log l a, k, s)

/-- A tree run to its end with nothing in between: result, final world, events. -/
def Prog.exec {α : Type} (svc : SQS σ) (h : Handler σ) :
    Prog α → σ → α × σ × List Event
  | .ret a, s => (a, s, [])
  | .HandleMessage m k, s =>
    let r := h.HandleMessage m s
    let q := (k r.1).exec svc h r.2
    (q.1, q.2.1, .HandleMessage m r.1 :: q.2.2)
  | .DeleteMessage p k, s =>
    let r := svc.DeleteMessage p s
    let q := (k r.1).exec svc h r.2
    (q.1, q.2.1, .DeleteMessage p r.1 :: q.2.2)
  | .Log l a k, s =>
    let q := k.exec svc h s
    (q.1, q.2.1, .Log l a :: q.2.2)

/-- Goroutine `j` of the pool makes its next call; `none` when there is no such
goroutine or it has returned. -/
def stepAt (svc : SQS σ) (h : Handler σ) (j : Nat) (pool : List (Prog Unit)) (s : σ) :
    Option (Event × List (Prog Unit) × σ) :=
  match pool[j]? with
  | none => none
  | some p =>
    match p.step svc h s with
    | none => none
    | some (e, p', s') => some (e, pool.set j p', s')

/-- The pool run under a schedule: each entry names the goroutine that makes the
next call (an entry naming no running goroutine is passed over). -/
def schedule (svc : SQS σ) (h : Handler σ) :
    List Nat → List (Prog Unit) → σ → List (Prog Unit) × σ × Trace
  | [], pool, s => (pool, s, [])
  | j :: js, pool, s =>
    match stepAt svc h j pool s with
    | none => schedule svc h js pool s
    | some (e, pool', s') =>
      let q := schedule svc h js pool' s'
      (q.1, q.2.1, (some j, e) :: q.2.2)

/-- The goroutines numbered from `i` run to their ends one after the other. -/
def drain (svc : SQS σ) (h : Handler σ) : Nat → List (Prog Unit) → σ → σ × Trace
  | _, [], s => (s, [])
  | i, p :: ps, s =>
    let r := p.exec svc h s
    let q := drain svc h (i + 1) ps r.2.1
    (q.1, r.2.2.map (fun e => (some i, e)) ++ q.2)

/-- The method `Config.run` (worker.go 80-101): one goroutine per message, then
`wg.Wait()`.  The goroutines interleave as `sched` says; when `sched` is used up
the goroutines still running finish in the order of their numbers, so every
execution ends with all of them done, and every interleaving of their calls is
the execution of some `sched`. -/
def run {L : Type} (c : Config L) (svc : SQS σ) (h : Handler σ) (messages : List Message)
    (sched : List Nat) (s : σ) : σ × Trace :=
  let numMessages := messages.length
  let info : Event :=
    .Log .Info (.str ("worker: Received " ++ toString numMessages ++ " messages"))
  let q := schedule svc h sched (messages.map (goroutine c)) s
  let d := drain svc h 0 q.1 q.2.1
  (d.1, (none, info) :: (q.2.2 ++ d.2))

/-- What one pass of the loop of `Start` leaves: the configuration, the world
and the calls made. -/
structure Pass (L σ : Type) where
  config : Config L
  world : σ
  trace : Trace

/-- The request that `Start` builds in every pass (worker.go 57-64). -/
def receiveParams {L : Type} (c : Config L) : ReceiveMessageInput :=
  { QueueUrl := c.QueueURL
    MaxNumberOfMessages := c.MaxNumberOfMessage
    MessageAttributeNames := ["All"]
    WaitTimeSeconds := c.WaitTimeSecond }

/-- The first call of every pass: `c.Log.Debug("worker: Start Polling")` (worker.go 55). -/
def startPolling : Option Nat × Event :=
  (none, .Log .Debug (.str "worker: Start Polling"))

/-- The body of the `for` loop of `Config.Start` (worker.go 55-75). -/
def StartPass {L : Type} (c : Config L) (svc : SQS σ) (h : Handler σ) (sched : List Nat)
    (s : σ) : Pass L σ :=
  let start := startPolling
  let params := receiveParams c
  let r := svc.ReceiveMessage params s
  match r.1 with
  | .failed err =>
    { config := c, world := r.2,
      trace := [start, (none, .ReceiveMessage params r.1), (none, .Log .Error (.err err))] }
  | .ok resp =>
    if resp.Messages.length > 0 then
      let q := run c svc h resp.Messages sched r.2
      { config := c, world := q.1,
        trace := start :: (none, .ReceiveMessage params r.1) :: q.2 }
    else
      { config := c, world := r.2, trace := [start, (none, .ReceiveMessage params r.1)] }

/-- The first `n` passes of the endless loop of `Config.Start` (worker.go 53-77);
`scheds k` is the schedule of the goroutines of pass `k`. -/
def Start {L : Type} (c : Config L) (svc : SQS σ) (h : Handler σ) :
    Nat → (Nat → List Nat) → σ → Pass L σ
  | 0, _, s => { config := c, world := s, trace := [] }
  | n + 1, scheds, s =>
    let p := StartPass c svc h (scheds 0) s
    let q := Start p.config svc h n (fun k => scheds (k + 1)) p.world
    { config := q.config, world := q.world, trace := p.trace ++ q.trace }

end Exec

/-! ## Observations on traces -/

/-- The events of a trace without the goroutine numbers. -/
def events (t : Trace) : List Event :=
  t.map Prod.snd

/-- The messages handed to the handler, in order. -/
def handled (es : List Event) : List Message :=
  es.filterMap fun e =>
    match e with
    | .HandleMessage m _ => some m
    | _ => none

/-- The answers of the handler, in order. -/
def handlerResults (es : List Event) : List error :=
  es.filterMap fun e =>
    match e with
    | .HandleMessage _ r => some r
    | _ => none

/-- The delete requests sent, in order. -/
def deleteCalls (es : List Event) : List DeleteMessageInput :=
  es.filterMap fun e =>
    match e with
    | .DeleteMessage p _ => some p
    | _ => none

/-- The answers to the delete requests, in order. -/
def deleteResults (es : List Event) : List error :=
  es.filterMap fun e =>
    match e with
    | .DeleteMessage _ r => some r
    | _ => none

/-- The receive requests sent, in order. -/
def receiveCalls (es : List Event) : List ReceiveMessageInput :=
  es.filterMap fun e =>
    match e with
    | .ReceiveMessage p _ => some p
    | _ => none

/-- The entries logged at the given level, in order. -/
def logged (l : Level) (es : List Event) : List LogArg :=
  es.filterMap fun e =>
    match e with
    | .Log l' a => if l' = l then some a else none
    | _ => none

/-- Whether an event is a call on the logger. -/
def Event.isLog : Event → Bool
  | .Log _ _ => true
  | _ => false

/-- The calls other than those on the logger, with their goroutines and answers. -/
def withoutLog (t : Trace) : Trace :=
  t.filter fun x => !x.2.isLog

/-- The configuration `c` with another logger and another value of `LoggingEnabled`. -/
def Config.withLogging {L L' : Type} (c : Config L) (log : L') (enabled : Bool) : Config L' :=
  { QueueURL := c.QueueURL
    MaxNumberOfMessage := c.MaxNumberOfMessage
    WaitTimeSecond := c.WaitTimeSecond
    Log := log
    LoggingEnabled := enabled }

/-! ## Per-goroutine view of a trace -/

/-- The calls of goroutine `i` in a trace, in order. -/
def proj (i : Nat) (t : Trace) : List Event :=
  t.filterMap fun x => if x.1 = some i then some x.2 else none

/-- The tree that is left after the calls `es` were made and answered as recorded. -/
def Prog.after {α : Type} : Prog α → List Event → Option (Prog α)
  | p, [] => some p
  | .HandleMessage m k, .HandleMessage m' r :: es => if m' = m then (k r).after es else none
  | .DeleteMessage p k, .DeleteMessage p' r :: es => if p' = p then (k r).after es else none
  | .Log l a k, .Log l' a' :: es => if l' = l ∧ a' = a then k.after es else none
  | _, _ :: _ => none

/-- The calls of the goroutines numbered below `n`, goroutine by goroutine. -/
def gather (t : Trace) : Nat → List Event
  | 0 => []
  | n + 1 => gather t n ++ proj n t

/-- Two goroutine bodies that make the same calls in the same order, except that
one of them may end with a call on the logger that the other does not make. -/
inductive SameUpToLog : Prog Unit → Prog Unit → Prop where
  | ret : SameUpToLog (.ret ()) (.ret ())
  | handle (m : Message) (k k' : error → Prog Unit) :
    (∀ r, SameUpToLog (k r) (k' r)) → SameUpToLog (.HandleMessage m k) (.HandleMessage m k')
  | delete (p : DeleteMessageInput) (k k' : error → Prog Unit) :
    (∀ r, SameUpToLog (k r) (k' r)) → SameUpToLog (.DeleteMessage p k) (.DeleteMessage p k')
  | log (l : Level) (a : LogArg) (k k' : Prog Unit) :
    SameUpToLog k k' → SameUpToLog (.Log l a k) (.Log l a k')
  | logLeft (l : Level) (a : LogArg) : SameUpToLog (.Log l a (.ret ())) (.ret ())
  | logRight (l : Level) (a : LogArg) : SameUpToLog (.ret ()) (.Log l a (.ret ()))

/-- Two pools of goroutines that are pairwise `SameUpToLog`. -/
def PoolSameUpToLog (P Q : List (Prog Unit)) : Prop :=
  P.length = Q.length ∧
    ∀ (j : Nat) (p q : Prog Unit), P[j]? = some p → Q[j]? = some q → SameUpToLog p q

/-- The calls after the handler call: the delete request answered `d`, and the
log entry that follows it. -/
def deleteEvents {L : Type} (c : Config L) (m : Message) (d : error) : List Event :=
  .DeleteMessage { QueueUrl := c.QueueURL, ReceiptHandle := m.ReceiptHandle } d ::
    (match d with
     | none =>
       [.Log .Debug (.str ("worker: deleted message from queue: " ++ StringValue m.ReceiptHandle))]
     | some e => if c.LoggingEnabled then [.Log .Error (.str e.Error)] else [])

/-- The calls of the goroutine of message `m` when the handler answers `r` and
the delete request, if one is made, is answered `d`. -/
def goroutineEvents {L : Type} (c : Config L) (m : Message) (r d : error) : List Event :=
  match r with
  | some (.InvalidEventError event msg) =>
    .HandleMessage m r :: .Log .Error (.str (GoError.InvalidEventError event msg).Error) ::
      deleteEvents c m d
  | some e => .HandleMessage m r :: (if c.LoggingEnabled then [.Log .Error (.str e.Error)] else [])
  | none => .HandleMessage m r :: deleteEvents c m d

/-! ## Sample inputs -/

/-- Three messages of a batch. -/
def msg1 : Message := { MessageId := some "id-1", ReceiptHandle := some "rh-1", Body := some "a" }

/-- The second message of the sample batch. -/
def msg2 : Message := { MessageId := some "id-2", ReceiptHandle := some "rh-2", Body := some "b" }

/-- The third message of the sample batch. -/
def msg3 : Message := { MessageId := some "id-3", ReceiptHandle := some "rh-3", Body := some "c" }

/-- The configuration of the example programs, with logging switched on or off. -/
def sampleConfig (loggingEnabled : Bool) : Config Unit :=
  { QueueURL := "https://queue.example/go-webhook-queue-test"
    MaxNumberOfMessage := 10
    WaitTimeSecond := 20
    Log := ()
    LoggingEnabled := loggingEnabled }

/-- A handler that succeeds on every message; the world counts the calls made. -/
def okHandler : Handler Nat :=
  HandlerFunc fun _ s => (none, s + 1)

/-- A handler that reports an invalid event for `msg2` and succeeds otherwise. -/
def invalidOn2 : Handler Nat :=
  HandlerFunc fun m s =>
    (if m = msg2 then some (NewInvalidEventError "order.created" "unexpected schema") else none,
      s + 1)

/-- A handler that fails with a generic error on every message. -/
def failingHandler : Handler Nat :=
  HandlerFunc fun _ s => (some (.other "boom"), s + 1)

/-- A handler that succeeds on `msg2` and fails with a generic error otherwise. -/
def failingButOn2 : Handler Nat :=
  HandlerFunc fun m s => (if m = msg2 then none else some (.other "boom"), s + 1)

/-- A queue that delivers the sample batch and accepts every delete request. -/
def okQueue : SQS Nat :=
  { ReceiveMessage := fun _ s => (.ok { Messages := [msg1, msg2, msg3] }, s + 1)
    DeleteMessage := fun _ s => (none, s + 1) }

/-- A queue that delivers the sample batch and refuses every delete request. -/
def noDeleteQueue : SQS Nat :=
  { ReceiveMessage := fun _ s => (.ok { Messages := [msg1, msg2, msg3] }, s + 1)
    DeleteMessage := fun _ s => (some (.other "AccessDenied"), s + 1) }

/-- A queue whose receive request fails. -/
def downQueue : SQS Nat :=
  { ReceiveMessage := fun _ s => (.failed (.other "RequestError: send request failed"), s + 1)
    DeleteMessage := fun _ s => (none, s + 1) }

/-- A queue with no message to deliver. -/
def emptyQueue : SQS Nat :=
  { ReceiveMessage := fun _ s => (.ok { Messages := [] }, s + 1)
    DeleteMessage := fun _ s => (none, s + 1) }

/-! ## Lemmas on executions -/

section Lemmas
variable {σ : Type}

@[simp] theorem proj_nil (i : Nat) : proj i [] = [] := rfl

theorem proj_cons (i : Nat) (x : Option Nat × Event) (t : Trace) :
    proj i (x :: t) = if x.1 = some i then x.2 :: proj i t else proj i t := by
  unfold proj
  by_cases hx : x.1 = some i <;> simp [List.filterMap_cons, hx]

@[simp] theorem proj_cons_self (i : Nat) (e : Event) (t : Trace) :
    proj i ((some i, e) :: t) = e :: proj i t := by
  simp [proj_cons]

theorem proj_cons_ne (i j : Nat) (e : Event) (t : Trace) (hij : j ≠ i) :
    proj i ((some j, e) :: t) = proj i t := by
  simp [proj_cons, hij]

@[simp] theorem proj_cons_none (i : Nat) (e : Event) (t : Trace) :
    proj i ((none, e) :: t) = proj i t := by
  simp [proj_cons]

@[simp] theorem proj_append (i : Nat) (t u : Trace) : proj i (t ++ u) = proj i t ++ proj i u := by
  simp [proj]

theorem proj_eq_nil (i : Nat) (t : Trace) (ht : ∀ x ∈ t, x.1 ≠ some i) : proj i t = [] := by
  induction t with
  | nil => rfl
  | cons x t ih =>
    have hx : x.1 ≠ some i := ht x (List.mem_cons_self _ _)
    rw [proj_cons, if_neg hx]
    exact ih (fun y hy => ht y (List.mem_cons_of_mem _ hy))

theorem proj_map_tag (i j : Nat) (es : List Event) :
    proj i (es.map (fun e => (some j, e))) = if j = i then es else [] := by
  induction es with
  | nil => simp
  | cons e es ih =>
    by_cases hji : j = i
    · subst hji
      simp at ih
      simp [ih]
    · simp [hji] at ih
      simp [proj_cons_ne _ _ _ _ hji, ih, hji]

@[simp] theorem after_nil {α : Type} (p : Prog α) : p.after [] = some p := by
  cases p <;> rfl

theorem after_append {α : Type} (es fs : List Event) (p : Prog α) :
    p.after (es ++ fs) = (p.after es).bind (fun q => q.after fs) := by
  induction es generalizing p with
  | nil => simp
  | cons e es ih =>
    cases p <;> cases e <;> simp [Prog.after, ih] <;> split <;> simp

theorem after_cons_step {α : Type} (svc : SQS σ) (h : Handler σ) (p p' : Prog α) (s s' : σ)
    (e : Event) (es : List Event) (hstep : p.step svc h s = some (e, p', s')) :
    p.after (e :: es) = p'.after es := by
  cases p with
  | ret a => simp [Prog.step] at hstep
  | HandleMessage m k =>
    simp [Prog.step] at hstep
    obtain ⟨rfl, rfl, -⟩ := hstep
    simp [Prog.after]
  | DeleteMessage q k =>
    simp [Prog.step] at hstep
    obtain ⟨rfl, rfl, -⟩ := hstep
    simp [Prog.after]
  | Log l a k =>
    simp [Prog.step] at hstep
    obtain ⟨rfl, rfl, -⟩ := hstep
    simp [Prog.after]

theorem exec_after {α : Type} (svc : SQS σ) (h : Handler σ) (p : Prog α) (s : σ) :
    p.after (p.exec svc h s).2.2 = some (.ret (p.exec svc h s).1) := by
  induction p generalizing s with
  | ret a => simp [Prog.exec]
  | HandleMessage m k ih => simp [Prog.exec, Prog.after, ih]
  | DeleteMessage q k ih => simp [Prog.exec, Prog.after, ih]
  | Log l a k ih => simp [Prog.exec, Prog.after, ih]

/-- Once every goroutine has returned, waiting for them adds no call: a schedule
that is long enough fixes the whole interleaving. -/
theorem drain_done (svc : SQS σ) (h : Handler σ) (pool : List (Prog Unit)) (i0 : Nat) (s : σ)
    (hdone : ∀ p ∈ pool, p.isDone = true) : drain svc h i0 pool s = (s, []) := by
  induction pool generalizing i0 with
  | nil => rfl
  | cons p ps ih =>
    have hp : p.isDone = true := hdone p (List.mem_cons_self _ _)
    cases p with
    | ret a =>
      simp only [drain, Prog.exec, List.map_nil, List.nil_append]
      exact ih (i0 + 1) (fun q hq => hdone q (List.mem_cons_of_mem _ hq))
    | HandleMessage m k => simp [Prog.isDone] at hp
    | DeleteMessage d k => simp [Prog.isDone] at hp
    | Log l a k => simp [Prog.isDone] at hp

theorem stepAt_some (svc : SQS σ) (h : Handler σ) (j : Nat) (pool pool' : List (Prog Unit))
    (s s' : σ) (e : Event) (hstep : stepAt svc h j pool s = some (e, pool', s')) :
    ∃ p p', pool[j]? = some p ∧ p.step svc h s = some (e, p', s') ∧ pool' = pool.set j p' := by
  unfold stepAt at hstep
  cases hp : pool[j]? with
  | none => simp [hp] at hstep
  | some p =>
    simp only [hp] at hstep
    cases hq : p.step svc h s with
    | none => simp [hq] at hstep
    | some r =>
      obtain ⟨e1, p1, s1⟩ := r
      simp only [hq, Option.some.injEq, Prod.mk.injEq] at hstep
      obtain ⟨rfl, rfl, rfl⟩ := hstep
      exact ⟨p, p1, rfl, hq, rfl⟩

theorem schedule_length (svc : SQS σ) (h : Handler σ) (sched : List Nat)
    (pool : List (Prog Unit)) (s : σ) :
    (schedule svc h sched pool s).1.length = pool.length := by
  induction sched generalizing pool s with
  | nil => rfl
  | cons j js ih =>
    unfold schedule
    cases hst : stepAt svc h j pool s with
    | none => simpa using ih pool s
    | some r =>
      obtain ⟨e, pool', s'⟩ := r
      obtain ⟨p, p', -, -, rfl⟩ := stepAt_some svc h j pool pool' s s' e hst
      simpa using ih (pool.set j p') s'

theorem schedule_tags (svc : SQS σ) (h : Handler σ) (sched : List Nat)
    (pool : List (Prog Unit)) (s : σ) :
    ∀ x ∈ (schedule svc h sched pool s).2.2, ∃ j, x.1 = some j ∧ j < pool.length := by
  induction sched generalizing pool s with
  | nil => intro x hx; simp [schedule] at hx
  | cons j js ih =>
    unfold schedule
    cases hst : stepAt svc h j pool s with
    | none => simpa using ih pool s
    | some r =>
      obtain ⟨e, pool', s'⟩ := r
      obtain ⟨p, p', hp, -, rfl⟩ := stepAt_some svc h j pool pool' s s' e hst
      intro x hx
      simp only [List.mem_cons] at hx
      rcases hx with rfl | hx
      · refine ⟨j, rfl, ?_⟩
        by_contra hlt
        rw [List.getElem?_eq_none (Nat.le_of_not_lt hlt)] at hp
        cases hp
      · simpa using ih (pool.set j p') s' x hx

theorem schedule_proj (svc : SQS σ) (h : Handler σ) (sched : List Nat)
    (pool : List (Prog Unit)) (s : σ) (i : Nat) (p : Prog Unit) (hp : pool[i]? = some p) :
    ∃ p', (schedule svc h sched pool s).1[i]? = some p' ∧
      p.after (proj i (schedule svc h sched pool s).2.2) = some p' := by
  induction sched generalizing pool s p with
  | nil => exact ⟨p, hp, by simp [schedule]⟩
  | cons j js ih =>
    unfold schedule
    cases hst : stepAt svc h j pool s with
    | none => simpa using ih pool s p hp
    | some r =>
      obtain ⟨e, pool', s'⟩ := r
      obtain ⟨pj, pj', hpj, hstep, rfl⟩ := stepAt_some svc h j pool pool' s s' e hst
      by_cases hji : j = i
      · subst hji
        have hpp : pj = p := by rw [hpj] at hp; exact Option.some.inj hp
        subst hpp
        have hset : (pool.set j pj')[j]? = some pj' := by
          rw [List.getElem?_set_self']
          simp [hpj]
        obtain ⟨q, hq1, hq2⟩ := ih (pool.set j pj') s' pj' hset
        refine ⟨q, hq1, ?_⟩
        simp only [proj_cons_self]
        rw [after_cons_step svc h pj pj' s s' e _ hstep]
        exact hq2
      · have hset : (pool.set j pj')[i]? = some p := by
          rw [List.getElem?_set_ne hji]
          exact hp
        obtain ⟨q, hq1, hq2⟩ := ih (pool.set j pj') s' p hset
        refine ⟨q, hq1, ?_⟩
        simp only [proj_cons_ne _ _ _ _ hji]
        exact hq2

theorem drain_tags (svc : SQS σ) (h : Handler σ) (pool : List (Prog Unit)) (i0 : Nat) (s : σ) :
    ∀ x ∈ (drain svc h i0 pool s).2, ∃ j, x.1 = some j ∧ i0 ≤ j ∧ j < i0 + pool.length := by
  induction pool generalizing i0 s with
  | nil => intro x hx; simp [drain] at hx
  | cons p ps ih =>
    intro x hx
    simp only [drain, List.mem_append, List.mem_map] at hx
    rcases hx with ⟨e, -, rfl⟩ | hx
    · exact ⟨i0, rfl, le_refl _, by simp⟩
    · obtain ⟨j, hj, h1, h2⟩ := ih (i0 + 1) _ x hx
      exact ⟨j, hj, by omega, by simp only [List.length_cons]; omega⟩

theorem drain_proj (svc : SQS σ) (h : Handler σ) (pool : List (Prog Unit)) (i0 : Nat) (s : σ)
    (k : Nat) (p : Prog Unit) (hp : pool[k]? = some p) :
    p.after (proj (i0 + k) (drain svc h i0 pool s).2) = some (.ret ()) := by
  induction pool generalizing i0 s k with
  | nil => simp at hp
  | cons q qs ih =>
    simp only [drain, proj_append, proj_map_tag]
    cases k with
    | zero =>
      simp only [List.getElem?_cons_zero, Option.some.injEq] at hp
      subst hp
      have hnil : proj (i0 + 0) (drain svc h (i0 + 1) qs (q.exec svc h s).2.1).2 = [] := by
        apply proj_eq_nil
        intro x hx hx'
        obtain ⟨j, hj, h1, -⟩ := drain_tags svc h qs (i0 + 1) _ x hx
        rw [hj] at hx'
        have : j = i0 + 0 := Option.some.inj hx'
        omega
      rw [hnil]
      simp [exec_after]
    | succ k =>
      simp only [List.getElem?_cons_succ] at hp
      have hne : ¬ i0 = i0 + (k + 1) := by omega
      rw [if_neg hne, List.nil_append]
      have := ih (i0 + 1) (q.exec svc h s).2.1 k hp
      rw [show i0 + 1 + k = i0 + (k + 1) by omega] at this
      exact this

/-- In an execution of `run`, the calls of the goroutine of `messages[i]` are a
complete execution of its body. -/
theorem run_proj {L : Type} (c : Config L) (svc : SQS σ) (h : Handler σ)
    (messages : List Message) (sched : List Nat) (s : σ) (i : Nat) (m : Message)
    (hm : messages[i]? = some m) :
    (goroutine c m).after (proj i (run c svc h messages sched s).2) = some (.ret ()) := by
  have hp : (messages.map (goroutine c))[i]? = some (goroutine c m) := by
    simp [hm]
  obtain ⟨p', hp1, hp2⟩ := schedule_proj svc h sched _ s i _ hp
  have hd := drain_proj svc h _ 0 (schedule svc h sched (messages.map (goroutine c)) s).2.1
    i p' hp1
  simp only [Nat.zero_add] at hd
  simp only [run, proj_cons_none, proj_append]
  rw [after_append, hp2]
  exact hd

theorem run_tags {L : Type} (c : Config L) (svc : SQS σ) (h : Handler σ)
    (messages : List Message) (sched : List Nat) (s : σ) :
    ∀ x ∈ (run c svc h messages sched s).2.tail, ∃ j, x.1 = some j ∧ j < messages.length := by
  intro x hx
  simp only [run, List.tail_cons, List.mem_append] at hx
  rcases hx with hx | hx
  · simpa using schedule_tags svc h sched _ s x hx
  · obtain ⟨j, hj, -, h2⟩ := drain_tags svc h _ 0 _ x hx
    refine ⟨j, hj, ?_⟩
    rw [schedule_length] at h2
    simpa using h2

theorem after_ret {α : Type} (a : α) (es : List Event) (q : Prog α)
    (hq : (Prog.ret a).after es = some q) : es = [] ∧ q = .ret a := by
  cases es with
  | nil => simp [Prog.after] at hq; exact ⟨rfl, hq.symm⟩
  | cons e es => simp [Prog.after] at hq

theorem wrap_after_done {L : Type} (c : Config L) (e : GoError) (es : List Event)
    (hdone : (if c.LoggingEnabled then Prog.Log .Error (.str e.Error) (.ret ()) else .ret ()).after es
      = some (.ret ())) :
    es = if c.LoggingEnabled then [.Log .Error (.str e.Error)] else [] := by
  cases hl : c.LoggingEnabled with
  | false =>
    simp only [hl, Bool.false_eq_true, if_false] at hdone ⊢
    exact (after_ret _ _ _ hdone).1
  | true =>
    simp only [hl, if_true] at hdone ⊢
    cases es with
    | nil => simp [Prog.after] at hdone
    | cons x xs =>
      cases x <;> simp [Prog.after] at hdone
      obtain ⟨⟨rfl, rfl⟩, h2⟩ := hdone
      rw [(after_ret _ _ _ h2).1]

theorem delete_after_done {L : Type} (c : Config L) (m : Message) (es : List Event)
    (hdone : ((deleteAndReport c m).bind fun err =>
      match err with
      | some e => if c.LoggingEnabled then .Log .Error (.str e.Error) (.ret ()) else .ret ()
      | none => .ret ()).after es = some (.ret ())) :
    ∃ d, es = deleteEvents c m d := by
  cases es with
  | nil => simp [deleteAndReport, Prog.bind, Prog.after] at hdone
  | cons x xs =>
    cases x <;> simp [deleteAndReport, Prog.bind, Prog.after] at hdone
    rename_i p r
    obtain ⟨rfl, h2⟩ := hdone
    refine ⟨r, ?_⟩
    cases r with
    | none =>
      simp only [Prog.bind] at h2
      cases xs with
      | nil => simp [Prog.after] at h2
      | cons y ys =>
        cases y <;> simp [Prog.after] at h2
        obtain ⟨⟨rfl, rfl⟩, h3⟩ := h2
        rw [(after_ret _ _ _ h3).1]
        rfl
    | some e =>
      simp only [Prog.bind] at h2
      rw [wrap_after_done c e xs h2]
      rfl

theorem goroutine_after_done {L : Type} (c : Config L) (m : Message) (es : List Event)
    (hdone : (goroutine c m).after es = some (.ret ())) :
    ∃ r d, es = goroutineEvents c m r d := by
  cases es with
  | nil => simp [goroutine, handleMessage, Prog.bind, Prog.after] at hdone
  | cons x xs =>
    cases x <;> simp [goroutine, handleMessage, Prog.bind, Prog.after] at hdone
    rename_i m' r
    obtain ⟨rfl, h2⟩ := hdone
    cases r with
    | none =>
      simp only [] at h2
      obtain ⟨d, rfl⟩ := delete_after_done c m' xs h2
      exact ⟨none, d, rfl⟩
    | some e =>
      cases e with
      | other text =>
        simp only [Prog.bind] at h2
        refine ⟨some (.other text), none, ?_⟩
        rw [wrap_after_done c _ xs h2]
        rfl
      | InvalidEventError event msg =>
        simp only [Prog.bind] at h2
        cases xs with
        | nil => simp [Prog.after] at h2
        | cons y ys =>
          cases y <;> simp [Prog.after] at h2
          obtain ⟨⟨rfl, rfl⟩, h3⟩ := h2
          obtain ⟨d, rfl⟩ := delete_after_done c m' ys h3
          exact ⟨some (.InvalidEventError event msg), d, rfl⟩

end Lemmas

/-! ## The claims -/

section Claims
variable {σ : Type}

theorem gather_nil (n : Nat) : gather [] n = [] := by
  induction n with
  | zero => rfl
  | succ n ih => simp [gather, ih]

theorem gather_cons_none (e : Event) (t : Trace) (n : Nat) :
    gather ((none, e) :: t) n = gather t n := by
  induction n with
  | zero => rfl
  | succ n ih => simp [gather, ih]

theorem gather_cons_ge (j : Nat) (e : Event) (t : Trace) (n : Nat) (hjn : n ≤ j) :
    gather ((some j, e) :: t) n = gather t n := by
  induction n with
  | zero => rfl
  | succ n ih =>
    have hne : j ≠ n := by omega
    simp [gather, ih (by omega), proj_cons_ne _ _ _ _ hne]

theorem gather_cons_lt (j : Nat) (e : Event) (t : Trace) (n : Nat) (hjn : j < n) :
    (gather ((some j, e) :: t) n).Perm (e :: gather t n) := by
  induction n with
  | zero => omega
  | succ n ih =>
    by_cases hj : j = n
    · subst hj
      simp only [gather, proj_cons_self, gather_cons_ge j e t j (le_refl _)]
      exact List.perm_middle
    · have hlt : j < n := by omega
      simp only [gather, proj_cons_ne _ _ _ _ hj]
      exact (ih hlt).append_right _

/-- A trace whose calls all come from goroutines numbered below `n` is a
rearrangement of the calls of these goroutines taken one goroutine after the other. -/
theorem events_perm_gather (t : Trace) (n : Nat)
    (ht : ∀ x ∈ t, ∃ j, x.1 = some j ∧ j < n) : (events t).Perm (gather t n) := by
  induction t with
  | nil => simp [events, gather_nil]
  | cons x t ih =>
    obtain ⟨j, hj, hjn⟩ := ht x (List.mem_cons_self _ _)
    obtain ⟨tag, e⟩ := x
    simp only at hj
    subst hj
    have ih' := ih (fun y hy => ht y (List.mem_cons_of_mem _ hy))
    simp only [events, List.map_cons] at ih' ⊢
    exact (List.Perm.cons e ih').trans (gather_cons_lt j e t n hjn).symm

theorem run_events_perm {L : Type} (c : Config L) (svc : SQS σ) (h : Handler σ)
    (messages : List Message) (sched : List Nat) (s : σ) :
    (events (run c svc h messages sched s).2).Perm
      (.Log .Info (.str ("worker: Received " ++ toString messages.length ++ " messages")) ::
        gather (run c svc h messages sched s).2 messages.length) := by
  have htags := run_tags c svc h messages sched s
  have hrun : (run c svc h messages sched s).2 =
      (none, .Log .Info (.str ("worker: Received " ++ toString messages.length ++ " messages"))) ::
        (run c svc h messages sched s).2.tail := by
    simp [run]
  rw [hrun, gather_cons_none]
  simp only [events, List.map_cons, List.tail_cons]
  exact List.Perm.cons _ (events_perm_gather _ _ htags)

theorem handled_goroutineEvents {L : Type} (c : Config L) (m : Message) (r d : error) :
    handled (goroutineEvents c m r d) = [m] := by
  rcases r with _ | ⟨_ | _⟩ <;> rcases d with _ | _ <;> cases hl : c.LoggingEnabled <;>
    simp [goroutineEvents, deleteEvents, handled, hl]

theorem handled_gather {L : Type} (c : Config L) (svc : SQS σ) (h : Handler σ)
    (messages : List Message) (sched : List Nat) (s : σ) (n : Nat) (hn : n ≤ messages.length) :
    handled (gather (run c svc h messages sched s).2 n) = messages.take n := by
  induction n with
  | zero => simp [gather, handled]
  | succ n ih =>
    have hlt : n < messages.length := by omega
    have hm : messages[n]? = some messages[n] := List.getElem?_eq_getElem hlt
    obtain ⟨r, d, hrd⟩ := goroutine_after_done c _ _ (run_proj c svc h messages sched s n _ hm)
    have hsplit : handled (gather (run c svc h messages sched s).2 (n + 1)) =
        handled (gather (run c svc h messages sched s).2 n) ++
          handled (proj n (run c svc h messages sched s).2) := by
      simp [gather, handled]
    rw [hsplit, ih (by omega), hrd, handled_goroutineEvents, List.take_succ, hm]
    rfl

/-- C2.  However the goroutines of a batch interleave and whatever the handler
and the delete requests answer, `run` returns after the handler has been called
exactly once for each message of the batch: as many calls as messages, the
messages handled are the batch up to order, and the goroutine of `messages[i]`
hands exactly `messages[i]` to the handler. -/
theorem run_handles_each_message_once {L : Type} (c : Config L) (svc : SQS σ) (h : Handler σ)
    (messages : List Message) (sched : List Nat) (s : σ) :
    (handled (events (run c svc h messages sched s).2)).length = messages.length ∧
    (handled (events (run c svc h messages sched s).2)).Perm messages ∧
    ∀ (i : Nat) (m : Message), messages[i]? = some m →
      handled (proj i (run c svc h messages sched s).2) = [m] := by
  have hperm : (handled (events (run c svc h messages sched s).2)).Perm messages := by
    have h1 : (handled (events (run c svc h messages sched s).2)).Perm
        (handled (.Log .Info (.str ("worker: Received " ++ toString messages.length ++ " messages")) ::
          gather (run c svc h messages sched s).2 messages.length)) :=
      List.Perm.filterMap _ (run_events_perm c svc h messages sched s)
    have h2 := handled_gather c svc h messages sched s messages.length (le_refl _)
    rw [List.take_length] at h2
    have h3 : handled (.Log .Info (.str ("worker: Received " ++ toString messages.length ++ " messages")) ::
          gather (run c svc h messages sched s).2 messages.length) =
        handled (gather (run c svc h messages sched s).2 messages.length) := by
      simp [handled]
    rw [h3, h2] at h1
    exact h1
  refine ⟨hperm.length_eq, hperm, ?_⟩
  intro i m hm
  obtain ⟨r, d, hrd⟩ := goroutine_after_done c _ _ (run_proj c svc h messages sched s i m hm)
  rw [hrd, handled_goroutineEvents]

/-- C1.  A call of `handleMessage` sends exactly one delete request, for the
queue of the configuration and the receipt handle of the message, when the
handler returns nil or an `InvalidEventError`, and sends none when the handler
returns any other error. -/
theorem handleMessage_delete_calls {L : Type} (c : Config L) (svc : SQS σ) (h : Handler σ)
    (m : Message) (s : σ) :
    (((h.HandleMessage m s).1 = none ∨ isInvalidEventError (h.HandleMessage m s).1 = true) →
      deleteCalls ((handleMessage c m).exec svc h s).2.2 =
        [{ QueueUrl := c.QueueURL, ReceiptHandle := m.ReceiptHandle }]) ∧
    (((h.HandleMessage m s).1 ≠ none ∧ isInvalidEventError (h.HandleMessage m s).1 = false) →
      deleteCalls ((handleMessage c m).exec svc h s).2.2 = []) := by
  cases hr : (h.HandleMessage m s).1 with
  | none =>
    refine ⟨fun _ => ?_, fun hne => absurd rfl hne.1⟩
    cases hd : (svc.DeleteMessage { QueueUrl := c.QueueURL, ReceiptHandle := m.ReceiptHandle }
      (h.HandleMessage m s).2).1 <;>
      simp [handleMessage, deleteAndReport, Prog.exec, deleteCalls, hr, hd]
  | some e =>
    cases e with
    | other text =>
      refine ⟨fun hor => ?_, fun _ => ?_⟩
      · rcases hor with hor | hor
        · cases hor
        · simp [isInvalidEventError] at hor
      · simp [handleMessage, Prog.exec, deleteCalls, hr]
    | InvalidEventError event msg =>
      refine ⟨fun _ => ?_, fun hne => ?_⟩
      · cases hd : (svc.DeleteMessage { QueueUrl := c.QueueURL, ReceiptHandle := m.ReceiptHandle }
          (h.HandleMessage m s).2).1 <;>
          simp [handleMessage, deleteAndReport, Prog.exec, deleteCalls, hr, hd]
      · simp [isInvalidEventError] at hne

theorem handlerResults_goroutineEvents {L : Type} (c : Config L) (m : Message) (r d : error) :
    handlerResults (goroutineEvents c m r d) = [r] := by
  rcases r with _ | ⟨_ | _⟩ <;> rcases d with _ | _ <;> cases hl : c.LoggingEnabled <;>
    simp [goroutineEvents, deleteEvents, handlerResults, hl]

theorem deleteResults_goroutineEvents {L : Type} (c : Config L) (m : Message) (r d : error) :
    deleteResults (goroutineEvents c m r d) =
      if r = none ∨ isInvalidEventError r = true then [d] else [] := by
  rcases r with _ | ⟨_ | _⟩ <;> rcases d with _ | _ <;> cases hl : c.LoggingEnabled <;>
    simp [goroutineEvents, deleteEvents, deleteResults, isInvalidEventError, hl]

theorem deleteCalls_goroutineEvents {L : Type} (c : Config L) (m : Message) (r d : error) :
    deleteCalls (goroutineEvents c m r d) =
      if r = none ∨ isInvalidEventError r = true then
        [{ QueueUrl := c.QueueURL, ReceiptHandle := m.ReceiptHandle }]
      else [] := by
  rcases r with _ | ⟨_ | _⟩ <;> rcases d with _ | _ <;> cases hl : c.LoggingEnabled <;>
    simp [goroutineEvents, deleteEvents, deleteCalls, isInvalidEventError, hl]

theorem goroutineEvents_generic {L : Type} (c : Config L) (m : Message) (e : GoError) (d : error)
    (he : isInvalidEventError (some e) = false) :
    goroutineEvents c m (some e) d =
      .HandleMessage m (some e) ::
        (if c.LoggingEnabled then [.Log .Error (.str e.Error)] else []) := by
  cases e with
  | other text => rfl
  | InvalidEventError event msg => simp [isInvalidEventError] at he

/-- C3.  Failure isolation: take two executions of `run` on one batch, with
any queue clients, handlers, worlds and schedules.  If the goroutine of
`messages[i]` got the same answer from the handler in both and the same answers
to its delete requests, then in both it called the handler once, on
`messages[i]`, and it made the same calls, the same delete requests among them,
whatever happened to the other messages. -/
theorem failure_isolation {L σ₁ σ₂ : Type} (c : Config L) (messages : List Message)
    (svc₁ : SQS σ₁) (h₁ : Handler σ₁) (sched₁ : List Nat) (s₁ : σ₁)
    (svc₂ : SQS σ₂) (h₂ : Handler σ₂) (sched₂ : List Nat) (s₂ : σ₂)
    (i : Nat) (m : Message) (hm : messages[i]? = some m)
    (hres : handlerResults (proj i (run c svc₁ h₁ messages sched₁ s₁).2) =
      handlerResults (proj i (run c svc₂ h₂ messages sched₂ s₂).2))
    (hdel : deleteResults (proj i (run c svc₁ h₁ messages sched₁ s₁).2) =
      deleteResults (proj i (run c svc₂ h₂ messages sched₂ s₂).2)) :
    handled (proj i (run c svc₁ h₁ messages sched₁ s₁).2) = [m] ∧
    handled (proj i (run c svc₂ h₂ messages sched₂ s₂).2) = [m] ∧
    deleteCalls (proj i (run c svc₁ h₁ messages sched₁ s₁).2) =
      deleteCalls (proj i (run c svc₂ h₂ messages sched₂ s₂).2) ∧
    proj i (run c svc₁ h₁ messages sched₁ s₁).2 = proj i (run c svc₂ h₂ messages sched₂ s₂).2 := by
  obtain ⟨r₁, d₁, e₁⟩ := goroutine_after_done c _ _ (run_proj c svc₁ h₁ messages sched₁ s₁ i m hm)
  obtain ⟨r₂, d₂, e₂⟩ := goroutine_after_done c _ _ (run_proj c svc₂ h₂ messages sched₂ s₂ i m hm)
  rw [e₁, e₂] at hres hdel ⊢
  rw [handlerResults_goroutineEvents, handlerResults_goroutineEvents] at hres
  have hr : r₁ = r₂ := by simpa using hres
  subst hr
  have hev : goroutineEvents c m r₁ d₁ = goroutineEvents c m r₁ d₂ := by
    rw [deleteResults_goroutineEvents, deleteResults_goroutineEvents] at hdel
    by_cases hack : r₁ = none ∨ isInvalidEventError r₁ = true
    · rw [if_pos hack, if_pos hack] at hdel
      have hd : d₁ = d₂ := by simpa using hdel
      rw [hd]
    · cases r₁ with
      | none => exact absurd (Or.inl rfl) hack
      | some e =>
        have he : isInvalidEventError (some e) = false := by
          cases hb : isInvalidEventError (some e) with
          | false => rfl
          | true => exact absurd (Or.inr hb) hack
        rw [goroutineEvents_generic c m e d₁ he, goroutineEvents_generic c m e d₂ he]
  refine ⟨handled_goroutineEvents c m r₁ d₁, handled_goroutineEvents c m r₁ d₂, ?_, hev⟩
  rw [hev]

/-- Witness of C3: the sample batch run twice; in the second execution the
handler fails with a generic error on every message but the second one, and the
goroutines are scheduled in another order. -/
theorem failure_isolation_witness :
    ([msg1, msg2, msg3][1]? = some msg2 ∧
      handlerResults (proj 1 (run (sampleConfig true) okQueue okHandler [msg1, msg2, msg3] [] 0).2) =
        handlerResults (proj 1
          (run (sampleConfig true) okQueue failingButOn2 [msg1, msg2, msg3] [2, 1, 0, 1, 2] 7).2) ∧
      deleteResults (proj 1 (run (sampleConfig true) okQueue okHandler [msg1, msg2, msg3] [] 0).2) =
        deleteResults (proj 1
          (run (sampleConfig true) okQueue failingButOn2 [msg1, msg2, msg3] [2, 1, 0, 1, 2] 7).2)) ∧
    (handled (proj 1 (run (sampleConfig true) okQueue okHandler [msg1, msg2, msg3] [] 0).2) =
        [msg2] ∧
      handled (proj 1
        (run (sampleConfig true) okQueue failingButOn2 [msg1, msg2, msg3] [2, 1, 0, 1, 2] 7).2) =
        [msg2] ∧
      deleteCalls (proj 1 (run (sampleConfig true) okQueue okHandler [msg1, msg2, msg3] [] 0).2) =
        deleteCalls (proj 1
          (run (sampleConfig true) okQueue failingButOn2 [msg1, msg2, msg3] [2, 1, 0, 1, 2] 7).2) ∧
      proj 1 (run (sampleConfig true) okQueue okHandler [msg1, msg2, msg3] [] 0).2 =
        proj 1
          (run (sampleConfig true) okQueue failingButOn2 [msg1, msg2, msg3] [2, 1, 0, 1, 2] 7).2) :=
  ⟨by decide,
    failure_isolation (sampleConfig true) [msg1, msg2, msg3] okQueue okHandler [] 0
      okQueue failingButOn2 [2, 1, 0, 1, 2] 7 1 msg2 (by decide) (by decide) (by decide)⟩

theorem StartPass_config {L : Type} (c : Config L) (svc : SQS σ) (h : Handler σ)
    (sched : List Nat) (s : σ) : (StartPass c svc h sched s).config = c := by
  cases hr : (svc.ReceiveMessage (receiveParams c) s).1 with
  | failed err => simp [StartPass, hr]
  | ok resp =>
    by_cases hlen : resp.Messages.length > 0 <;> simp [StartPass, hr, hlen]

/-- Every pass of the loop begins by logging "worker: Start Polling" and sending
the receive request of the configuration to the queue. -/
theorem StartPass_trace_head {L : Type} (c : Config L) (svc : SQS σ) (h : Handler σ)
    (sched : List Nat) (s : σ) :
    ∃ rest, (StartPass c svc h sched s).trace =
      startPolling ::
        (none, .ReceiveMessage (receiveParams c) (svc.ReceiveMessage (receiveParams c) s).1) ::
        rest := by
  cases hr : (svc.ReceiveMessage (receiveParams c) s).1 with
  | failed err => exact ⟨[(none, .Log .Error (.err err))], by simp [StartPass, hr]⟩
  | ok resp =>
    by_cases hlen : resp.Messages.length > 0
    · exact ⟨(run c svc h resp.Messages sched (svc.ReceiveMessage (receiveParams c) s).2).2,
        by simp [StartPass, hr, hlen]⟩
    · exact ⟨[], by simp [StartPass, hr, hlen]⟩

/-- After a pass the loop makes the next one: the trace of `n + 2` passes is the
trace of the first pass followed by the first two calls of the second pass, made
in the world the first pass left, and then the rest. -/
theorem Start_next_pass {L : Type} (c : Config L) (svc : SQS σ) (h : Handler σ)
    (n : Nat) (scheds : Nat → List Nat) (s : σ) :
    ∃ rest, (Start c svc h (n + 2) scheds s).trace =
      (StartPass c svc h (scheds 0) s).trace ++
        startPolling ::
        (none, .ReceiveMessage (receiveParams c)
          (svc.ReceiveMessage (receiveParams c) (StartPass c svc h (scheds 0) s).world).1) ::
        rest := by
  obtain ⟨rest, hrest⟩ := StartPass_trace_head c svc h (scheds 1)
    (StartPass c svc h (scheds 0) s).world
  refine ⟨rest ++ (Start c svc h n (fun k => scheds (k + 1 + 1))
    (StartPass c svc h (scheds 1) (StartPass c svc h (scheds 0) s).world).world).trace, ?_⟩
  simp only [Start, StartPass_config, hrest]
  simp

/-- C4.  A pass of `Start` whose receive request fails makes three calls: the
"Start Polling" debug entry, the receive request, and `c.Log.Error(err)`; it
calls neither the handler nor `DeleteMessage`, whatever `LoggingEnabled` is; and
the loop goes on: in any longer run of `Start` the failed pass is followed by the
"Start Polling" entry and the receive request of the next pass. -/
theorem receive_error_skips_pass {L : Type} (c : Config L) (svc : SQS σ) (h : Handler σ)
    (sched : List Nat) (s : σ) (err : GoError)
    (hfail : (svc.ReceiveMessage (receiveParams c) s).1 = .failed err) :
    (StartPass c svc h sched s).trace =
      [startPolling, (none, .ReceiveMessage (receiveParams c) (.failed err)),
        (none, .Log .Error (.err err))] ∧
    handled (events (StartPass c svc h sched s).trace) = [] ∧
    deleteCalls (events (StartPass c svc h sched s).trace) = [] ∧
    logged .Error (events (StartPass c svc h sched s).trace) = [.err err] ∧
    ∀ (n : Nat) (scheds : Nat → List Nat), ∃ rest,
      (Start c svc h (n + 2) scheds s).trace =
        [startPolling, (none, .ReceiveMessage (receiveParams c) (.failed err)),
          (none, .Log .Error (.err err))] ++
        startPolling ::
        (none, .ReceiveMessage (receiveParams c)
          (svc.ReceiveMessage (receiveParams c) (svc.ReceiveMessage (receiveParams c) s).2).1) ::
        rest := by
  have htrace : ∀ sched', (StartPass c svc h sched' s).trace =
      [startPolling, (none, .ReceiveMessage (receiveParams c) (.failed err)),
        (none, .Log .Error (.err err))] := by
    intro sched'
    simp [StartPass, hfail]
  have hworld : ∀ sched', (StartPass c svc h sched' s).world =
      (svc.ReceiveMessage (receiveParams c) s).2 := by
    intro sched'
    simp [StartPass, hfail]
  refine ⟨htrace sched, ?_, ?_, ?_, ?_⟩
  · rw [htrace]; rfl
  · rw [htrace]; rfl
  · rw [htrace]; simp [events, logged, startPolling]
  · intro n scheds
    obtain ⟨rest, hrest⟩ := Start_next_pass c svc h n scheds s
    rw [htrace, hworld] at hrest
    exact ⟨rest, hrest⟩

/-- Witness of C4: a queue whose receive request fails, logging switched off. -/
theorem receive_error_skips_pass_witness :
    (downQueue.ReceiveMessage (receiveParams (sampleConfig false)) 0).1 =
        .failed (.other "RequestError: send request failed") ∧
    (StartPass (sampleConfig false) downQueue okHandler [] 0).trace =
      [startPolling,
        (none, .ReceiveMessage (receiveParams (sampleConfig false))
          (.failed (.other "RequestError: send request failed"))),
        (none, .Log .Error (.err (.other "RequestError: send request failed")))] :=
  ⟨by decide,
    (receive_error_skips_pass (sampleConfig false) downQueue okHandler [] 0
      (.other "RequestError: send request failed") (by decide)).1⟩

/-- C5.  A pass of `Start` whose receive request succeeds with no message makes
two calls only, the "Start Polling" debug entry and the receive request: `run`
is not entered (no "Received" entry), the handler and `DeleteMessage` are not
called, and the loop goes on to the next receive request. -/
theorem empty_receive_skips_run {L : Type} (c : Config L) (svc : SQS σ) (h : Handler σ)
    (sched : List Nat) (s : σ) (resp : ReceiveMessageOutput)
    (hok : (svc.ReceiveMessage (receiveParams c) s).1 = .ok resp)
    (hempty : resp.Messages = []) :
    (StartPass c svc h sched s).trace =
      [startPolling, (none, .ReceiveMessage (receiveParams c) (.ok resp))] ∧
    handled (events (StartPass c svc h sched s).trace) = [] ∧
    deleteCalls (events (StartPass c svc h sched s).trace) = [] ∧
    logged .Info (events (StartPass c svc h sched s).trace) = [] ∧
    ∀ (n : Nat) (scheds : Nat → List Nat), ∃ rest,
      (Start c svc h (n + 2) scheds s).trace =
        [startPolling, (none, .ReceiveMessage (receiveParams c) (.ok resp))] ++
        startPolling ::
        (none, .ReceiveMessage (receiveParams c)
          (svc.ReceiveMessage (receiveParams c) (svc.ReceiveMessage (receiveParams c) s).2).1) ::
        rest := by
  have htrace : ∀ sched', (StartPass c svc h sched' s).trace =
      [startPolling, (none, .ReceiveMessage (receiveParams c) (.ok resp))] := by
    intro sched'
    simp [StartPass, hok, hempty]
  have hworld : ∀ sched', (StartPass c svc h sched' s).world =
      (svc.ReceiveMessage (receiveParams c) s).2 := by
    intro sched'
    simp [StartPass, hok, hempty]
  refine ⟨htrace sched, ?_, ?_, ?_, ?_⟩
  · rw [htrace]; rfl
  · rw [htrace]; rfl
  · rw [htrace]; simp [events, logged, startPolling]
  · intro n scheds
    obtain ⟨rest, hrest⟩ := Start_next_pass c svc h n scheds s
    rw [htrace, hworld] at hrest
    exact ⟨rest, hrest⟩

/-- Witness of C5: a queue with nothing to deliver. -/
theorem empty_receive_skips_run_witness :
    ((emptyQueue.ReceiveMessage (receiveParams (sampleConfig true)) 0).1 = .ok { Messages := [] } ∧
      ({ Messages := [] } : ReceiveMessageOutput).Messages = []) ∧
    (StartPass (sampleConfig true) emptyQueue okHandler [] 0).trace =
      [startPolling,
        (none, .ReceiveMessage (receiveParams (sampleConfig true)) (.ok { Messages := [] }))] :=
  ⟨⟨by decide, rfl⟩,
    (empty_receive_skips_run (sampleConfig true) emptyQueue okHandler [] 0 { Messages := [] }
      (by decide) rfl).1⟩

theorem goroutineEvents_delete_failed {L : Type} (c : Config L) (m : Message) (e : GoError) :
    goroutineEvents c m none (some e) =
      .HandleMessage m none ::
        .DeleteMessage { QueueUrl := c.QueueURL, ReceiptHandle := m.ReceiptHandle } (some e) ::
        (if c.LoggingEnabled then [.Log .Error (.str e.Error)] else []) := rfl

/-- Counterexample to C6 as stated: with `LoggingEnabled` false, the handler
fails with a generic error on the only message of the batch, and `run` logs
nothing at the error level. -/
theorem generic_error_unlogged_when_logging_disabled :
    handlerResults (proj 0 (run (sampleConfig false) okQueue failingHandler [msg1] [] 0).2) =
      [some (.other "boom")] ∧
    isInvalidEventError (some (.other "boom")) = false ∧
    logged .Error (events (run (sampleConfig false) okQueue failingHandler [msg1] [] 0).2) = [] := by
  decide

/-- C6, amended.  When the handler answers the goroutine of `messages[i]` with a
generic error `e` (non-nil, not an `InvalidEventError`), that goroutine sends no
delete request, and its only other call is `c.Log.Error(e.Error())`, made when
`LoggingEnabled` is true and not made when it is false. -/
theorem generic_error_logged_iff_enabled {L : Type} (c : Config L) (svc : SQS σ)
    (h : Handler σ) (messages : List Message) (sched : List Nat) (s : σ)
    (i : Nat) (m : Message) (e : GoError) (hm : messages[i]? = some m)
    (hgeneric : isInvalidEventError (some e) = false)
    (hres : handlerResults (proj i (run c svc h messages sched s).2) = [some e]) :
    deleteCalls (proj i (run c svc h messages sched s).2) = [] ∧
    logged .Error (proj i (run c svc h messages sched s).2) =
      (if c.LoggingEnabled then [.str e.Error] else []) ∧
    proj i (run c svc h messages sched s).2 =
      .HandleMessage m (some e) ::
        (if c.LoggingEnabled then [.Log .Error (.str e.Error)] else []) := by
  obtain ⟨r, d, hrd⟩ := goroutine_after_done c _ _ (run_proj c svc h messages sched s i m hm)
  rw [hrd] at hres ⊢
  rw [handlerResults_goroutineEvents] at hres
  have hr : r = some e := by simpa using hres
  subst hr
  rw [goroutineEvents_generic c m e d hgeneric]
  cases hl : c.LoggingEnabled <;> simp [deleteCalls, logged]

/-- Witness of C6, amended: the sample batch with a handler that always fails,
logging switched on. -/
theorem generic_error_logged_iff_enabled_witness :
    ([msg1, msg2, msg3][2]? = some msg3 ∧
      isInvalidEventError (some (.other "boom")) = false ∧
      handlerResults
        (proj 2 (run (sampleConfig true) okQueue failingHandler [msg1, msg2, msg3] [1, 2] 0).2) =
        [some (.other "boom")]) ∧
    (deleteCalls
        (proj 2 (run (sampleConfig true) okQueue failingHandler [msg1, msg2, msg3] [1, 2] 0).2) =
        [] ∧
      logged .Error
        (proj 2 (run (sampleConfig true) okQueue failingHandler [msg1, msg2, msg3] [1, 2] 0).2) =
        (if (sampleConfig true).LoggingEnabled then [.str (GoError.other "boom").Error] else []) ∧
      proj 2 (run (sampleConfig true) okQueue failingHandler [msg1, msg2, msg3] [1, 2] 0).2 =
        .HandleMessage msg3 (some (.other "boom")) ::
          (if (sampleConfig true).LoggingEnabled then
            [.Log .Error (.str (GoError.other "boom").Error)] else [])) :=
  ⟨by decide,
    generic_error_logged_iff_enabled (sampleConfig true) okQueue failingHandler
      [msg1, msg2, msg3] [1, 2] 0 2 msg3 (.other "boom") (by decide) (by decide) (by decide)⟩

/-- Counterexample to C7 as stated: with `LoggingEnabled` false, the handler
succeeds on the only message of the batch, the delete request fails, and `run`
logs nothing at the error level. -/
theorem delete_failure_unlogged_when_logging_disabled :
    handlerResults (proj 0 (run (sampleConfig false) noDeleteQueue okHandler [msg1] [] 0).2) =
      [none] ∧
    deleteResults (proj 0 (run (sampleConfig false) noDeleteQueue okHandler [msg1] [] 0).2) =
      [some (.other "AccessDenied")] ∧
    logged .Error (events (run (sampleConfig false) noDeleteQueue okHandler [msg1] [] 0).2) =
      [] := by
  decide

/-- C7, amended.  When the handler answers the goroutine of `messages[i]` with
nil and its delete request fails with `e`, that goroutine sends exactly one
delete request (no retry), logs no "deleted message from queue" debug entry,
and calls `c.Log.Error(e.Error())` when `LoggingEnabled` is true and not when it
is false. -/
theorem delete_failure_logged_iff_enabled {L : Type} (c : Config L) (svc : SQS σ)
    (h : Handler σ) (messages : List Message) (sched : List Nat) (s : σ)
    (i : Nat) (m : Message) (e : GoError) (hm : messages[i]? = some m)
    (hres : handlerResults (proj i (run c svc h messages sched s).2) = [none])
    (hdel : deleteResults (proj i (run c svc h messages sched s).2) = [some e]) :
    deleteCalls (proj i (run c svc h messages sched s).2) =
      [{ QueueUrl := c.QueueURL, ReceiptHandle := m.ReceiptHandle }] ∧
    logged .Debug (proj i (run c svc h messages sched s).2) = [] ∧
    logged .Error (proj i (run c svc h messages sched s).2) =
      (if c.LoggingEnabled then [.str e.Error] else []) ∧
    proj i (run c svc h messages sched s).2 =
      .HandleMessage m none ::
        .DeleteMessage { QueueUrl := c.QueueURL, ReceiptHandle := m.ReceiptHandle } (some e) ::
        (if c.LoggingEnabled then [.Log .Error (.str e.Error)] else []) := by
  obtain ⟨r, d, hrd⟩ := goroutine_after_done c _ _ (run_proj c svc h messages sched s i m hm)
  rw [hrd] at hres hdel ⊢
  rw [handlerResults_goroutineEvents] at hres
  have hr : r = none := by simpa using hres
  subst hr
  rw [deleteResults_goroutineEvents] at hdel
  have hd : d = some e := by simpa using hdel
  subst hd
  rw [goroutineEvents_delete_failed]
  cases hl : c.LoggingEnabled <;> simp [deleteCalls, logged]

/-- Witness of C7, amended: the sample batch against a queue that refuses every
delete request, logging switched on. -/
theorem delete_failure_logged_iff_enabled_witness :
    ([msg1, msg2, msg3][0]? = some msg1 ∧
      handlerResults
        (proj 0 (run (sampleConfig true) noDeleteQueue okHandler [msg1, msg2, msg3] [2, 0] 0).2) =
        [none] ∧
      deleteResults
        (proj 0 (run (sampleConfig true) noDeleteQueue okHandler [msg1, msg2, msg3] [2, 0] 0).2) =
        [some (.other "AccessDenied")]) ∧
    logged .Error
        (proj 0 (run (sampleConfig true) noDeleteQueue okHandler [msg1, msg2, msg3] [2, 0] 0).2) =
      (if (sampleConfig true).LoggingEnabled then [.str (GoError.other "AccessDenied").Error]
        else []) :=
  ⟨by decide,
    (delete_failure_logged_iff_enabled (sampleConfig true) noDeleteQueue okHandler
      [msg1, msg2, msg3] [2, 0] 0 0 msg1 (.other "AccessDenied") (by decide) (by decide)
      (by decide)).2.2.1⟩

theorem mem_events_of_mem_proj (i : Nat) (t : Trace) (e : Event) (he : e ∈ proj i t) :
    e ∈ events t := by
  simp only [proj, List.mem_filterMap] at he
  obtain ⟨x, hx, hxe⟩ := he
  by_cases hi : x.1 = some i
  · rw [if_pos hi] at hxe
    exact List.mem_map.mpr ⟨x, hx, Option.some.inj hxe⟩
  · rw [if_neg hi] at hxe
    cases hxe

theorem handlerResults_mono (es fs : List Event) (hsub : ∀ e ∈ es, e ∈ fs) :
    ∀ r ∈ handlerResults es, r ∈ handlerResults fs := by
  intro r hr
  simp only [handlerResults, List.mem_filterMap] at hr ⊢
  obtain ⟨e, he, her⟩ := hr
  exact ⟨e, hsub e he, her⟩

theorem deleteResults_mono (es fs : List Event) (hsub : ∀ e ∈ es, e ∈ fs) :
    ∀ r ∈ deleteResults es, r ∈ deleteResults fs := by
  intro r hr
  simp only [deleteResults, List.mem_filterMap] at hr ⊢
  obtain ⟨e, he, her⟩ := hr
  exact ⟨e, hsub e he, her⟩

theorem acknowledged_goroutineEvents {L : Type} (c : Config L) (m : Message) (r : error)
    (hr : r = none ∨ isInvalidEventError r = true) :
    (deleteCalls (goroutineEvents c m r none)).length = 1 ∧
    (logged .Error (goroutineEvents c m r none)).length =
      (handlerResults (goroutineEvents c m r none)).countP isInvalidEventError := by
  rcases r with _ | ⟨_ | _⟩
  · simp [goroutineEvents, deleteEvents, deleteCalls, logged, handlerResults, isInvalidEventError]
  · simp [goroutineEvents, deleteEvents, deleteCalls, logged, handlerResults, isInvalidEventError]
  · simp [isInvalidEventError] at hr

theorem acknowledged_gather {L : Type} (c : Config L) (svc : SQS σ) (h : Handler σ)
    (messages : List Message) (sched : List Nat) (s : σ)
    (hack : ∀ r ∈ handlerResults (events (run c svc h messages sched s).2),
      r = none ∨ isInvalidEventError r = true)
    (hdel : ∀ d ∈ deleteResults (events (run c svc h messages sched s).2), d = none)
    (n : Nat) (hn : n ≤ messages.length) :
    (deleteCalls (gather (run c svc h messages sched s).2 n)).length = n ∧
    (logged .Error (gather (run c svc h messages sched s).2 n)).length =
      (handlerResults (gather (run c svc h messages sched s).2 n)).countP isInvalidEventError := by
  induction n with
  | zero => simp [gather, deleteCalls, logged, handlerResults]
  | succ n ih =>
    have hlt : n < messages.length := by omega
    have hm : messages[n]? = some messages[n] := List.getElem?_eq_getElem hlt
    obtain ⟨r, d, hrd⟩ := goroutine_after_done c _ _ (run_proj c svc h messages sched s n _ hm)
    have hsub := mem_events_of_mem_proj n (run c svc h messages sched s).2
    have hr : r = none ∨ isInvalidEventError r = true := by
      apply hack
      apply handlerResults_mono _ _ hsub
      rw [hrd, handlerResults_goroutineEvents]
      exact List.mem_singleton_self r
    have hd : d = none := by
      apply hdel
      apply deleteResults_mono _ _ hsub
      rw [hrd, deleteResults_goroutineEvents, if_pos hr]
      exact List.mem_singleton_self d
    subst hd
    obtain ⟨h1, h2⟩ := acknowledged_goroutineEvents c messages[n] r hr
    obtain ⟨ih1, ih2⟩ := ih (by omega)
    have e1 : deleteCalls (gather (run c svc h messages sched s).2 (n + 1)) =
        deleteCalls (gather (run c svc h messages sched s).2 n) ++
          deleteCalls (proj n (run c svc h messages sched s).2) := by
      simp [gather, deleteCalls]
    have e2 : logged .Error (gather (run c svc h messages sched s).2 (n + 1)) =
        logged .Error (gather (run c svc h messages sched s).2 n) ++
          logged .Error (proj n (run c svc h messages sched s).2) := by
      simp [gather, logged]
    have e3 : handlerResults (gather (run c svc h messages sched s).2 (n + 1)) =
        handlerResults (gather (run c svc h messages sched s).2 n) ++
          handlerResults (proj n (run c svc h messages sched s).2) := by
      simp [gather, handlerResults]
    rw [e1, e2, e3, hrd, List.length_append, List.length_append, List.countP_append, h1, h2,
      ih1, ih2]
    exact ⟨rfl, rfl⟩

/-- C8.  If in an execution of `run` on a batch every answer of the handler was
nil or an `InvalidEventError` and every delete request succeeded, then `run` sent
as many delete requests as the batch has messages, and logged as many entries at
the error level as the handler returned `InvalidEventError`s. -/
theorem acknowledged_batch_counts {L : Type} (c : Config L) (svc : SQS σ) (h : Handler σ)
    (messages : List Message) (sched : List Nat) (s : σ)
    (hack : ∀ r ∈ handlerResults (events (run c svc h messages sched s).2),
      r = none ∨ isInvalidEventError r = true)
    (hdel : ∀ d ∈ deleteResults (events (run c svc h messages sched s).2), d = none) :
    (deleteCalls (events (run c svc h messages sched s).2)).length = messages.length ∧
    (logged .Error (events (run c svc h messages sched s).2)).length =
      (handlerResults (events (run c svc h messages sched s).2)).countP isInvalidEventError := by
  obtain ⟨g1, g2⟩ := acknowledged_gather c svc h messages sched s hack hdel messages.length
    (le_refl _)
  have hperm := run_events_perm c svc h messages sched s
  have p1 : (deleteCalls (events (run c svc h messages sched s).2)).Perm
      (deleteCalls (gather (run c svc h messages sched s).2 messages.length)) := by
    have := List.Perm.filterMap (fun e =>
      match e with
      | .DeleteMessage p _ => some p
      | _ => none) hperm
    simpa [deleteCalls] using this
  have p2 : (logged .Error (events (run c svc h messages sched s).2)).Perm
      (logged .Error (gather (run c svc h messages sched s).2 messages.length)) := by
    have := List.Perm.filterMap (fun e =>
      match e with
      | .Log l' a => if l' = Level.Error then some a else none
      | _ => none) hperm
    simpa [logged] using this
  have p3 : (handlerResults (events (run c svc h messages sched s).2)).Perm
      (handlerResults (gather (run c svc h messages sched s).2 messages.length)) := by
    have := List.Perm.filterMap (fun e =>
      match e with
      | .HandleMessage _ r => some r
      | _ => none) hperm
    simpa [handlerResults] using this
  rw [p1.length_eq, p2.length_eq, p3.countP_eq, g1, g2]
  exact ⟨rfl, rfl⟩

/-- Witness of C8, the scenario of the specification: a batch of three messages,
the handler reports an invalid event for the second one and succeeds on the
others, every delete request succeeds: three delete requests, one entry at the
error level. -/
theorem acknowledged_batch_counts_witness :
    ((∀ r ∈ handlerResults
          (events (run (sampleConfig false) okQueue invalidOn2 [msg1, msg2, msg3] [2, 1, 1, 0] 0).2),
        r = none ∨ isInvalidEventError r = true) ∧
      (∀ d ∈ deleteResults
          (events (run (sampleConfig false) okQueue invalidOn2 [msg1, msg2, msg3] [2, 1, 1, 0] 0).2),
        d = none)) ∧
    ((deleteCalls
        (events (run (sampleConfig false) okQueue invalidOn2 [msg1, msg2, msg3] [2, 1, 1, 0] 0).2)).length
        = [msg1, msg2, msg3].length ∧
      (logged .Error
        (events (run (sampleConfig false) okQueue invalidOn2 [msg1, msg2, msg3] [2, 1, 1, 0] 0).2)).length
        = (handlerResults
          (events (run (sampleConfig false) okQueue invalidOn2 [msg1, msg2, msg3] [2, 1, 1, 0] 0).2)).countP
            isInvalidEventError) ∧
    [msg1, msg2, msg3].length = 3 ∧
    (handlerResults
      (events (run (sampleConfig false) okQueue invalidOn2 [msg1, msg2, msg3] [2, 1, 1, 0] 0).2)).countP
        isInvalidEventError = 1 :=
  ⟨by decide,
    acknowledged_batch_counts (sampleConfig false) okQueue invalidOn2 [msg1, msg2, msg3]
      [2, 1, 1, 0] 0 (by decide) (by decide),
    by decide, by decide⟩

theorem receiveCalls_goroutineEvents {L : Type} (c : Config L) (m : Message) (r d : error) :
    receiveCalls (goroutineEvents c m r d) = [] := by
  rcases r with _ | ⟨_ | _⟩ <;> rcases d with _ | _ <;> cases hl : c.LoggingEnabled <;>
    simp [goroutineEvents, deleteEvents, receiveCalls, hl]

theorem receiveCalls_gather {L : Type} (c : Config L) (svc : SQS σ) (h : Handler σ)
    (messages : List Message) (sched : List Nat) (s : σ) (n : Nat) (hn : n ≤ messages.length) :
    receiveCalls (gather (run c svc h messages sched s).2 n) = [] := by
  induction n with
  | zero => simp [gather, receiveCalls]
  | succ n ih =>
    have hlt : n < messages.length := by omega
    have hm : messages[n]? = some messages[n] := List.getElem?_eq_getElem hlt
    obtain ⟨r, d, hrd⟩ := goroutine_after_done c _ _ (run_proj c svc h messages sched s n _ hm)
    have hsplit : receiveCalls (gather (run c svc h messages sched s).2 (n + 1)) =
        receiveCalls (gather (run c svc h messages sched s).2 n) ++
          receiveCalls (proj n (run c svc h messages sched s).2) := by
      simp [gather, receiveCalls]
    rw [hsplit, ih (by omega), hrd, receiveCalls_goroutineEvents]
    rfl

/-- The goroutines of `run` send no receive request. -/
theorem receiveCalls_run {L : Type} (c : Config L) (svc : SQS σ) (h : Handler σ)
    (messages : List Message) (sched : List Nat) (s : σ) :
    receiveCalls (events (run c svc h messages sched s).2) = [] := by
  have hperm : (receiveCalls (events (run c svc h messages sched s).2)).Perm
      (receiveCalls (gather (run c svc h messages sched s).2 messages.length)) := by
    have := List.Perm.filterMap (fun e =>
      match e with
      | .ReceiveMessage p _ => some p
      | _ => none) (run_events_perm c svc h messages sched s)
    simpa [receiveCalls] using this
  rw [receiveCalls_gather c svc h messages sched s messages.length (le_refl _)] at hperm
  exact List.Perm.eq_nil hperm

theorem receiveCalls_StartPass {L : Type} (c : Config L) (svc : SQS σ) (h : Handler σ)
    (sched : List Nat) (s : σ) :
    receiveCalls (events (StartPass c svc h sched s).trace) = [receiveParams c] := by
  cases hr : (svc.ReceiveMessage (receiveParams c) s).1 with
  | failed err => simp [StartPass, hr, events, receiveCalls, startPolling]
  | ok resp =>
    by_cases hlen : resp.Messages.length > 0
    · have hrun := receiveCalls_run c svc h resp.Messages sched
        (svc.ReceiveMessage (receiveParams c) s).2
      simp only [events, receiveCalls] at hrun
      simp [StartPass, hr, hlen, events, receiveCalls, startPolling, hrun]
    · simp [StartPass, hr, hlen, events, receiveCalls, startPolling]

/-- C9.  Every pass of `Start` sends exactly one receive request, with the queue
URL, the maximum number of messages and the wait time of the configuration, and
leaves the configuration as it was; so the first `n` passes send `n` times that
same request. -/
theorem one_receive_request_per_pass {L : Type} (c : Config L) (svc : SQS σ) (h : Handler σ) :
    (∀ (sched : List Nat) (s : σ),
      receiveCalls (events (StartPass c svc h sched s).trace) =
        [{ QueueUrl := c.QueueURL
           MaxNumberOfMessages := c.MaxNumberOfMessage
           MessageAttributeNames := ["All"]
           WaitTimeSeconds := c.WaitTimeSecond }] ∧
      (StartPass c svc h sched s).config = c) ∧
    ∀ (n : Nat) (scheds : Nat → List Nat) (s : σ),
      receiveCalls (events (Start c svc h n scheds s).trace) =
        List.replicate n
          { QueueUrl := c.QueueURL
            MaxNumberOfMessages := c.MaxNumberOfMessage
            MessageAttributeNames := ["All"]
            WaitTimeSeconds := c.WaitTimeSecond } ∧
      (Start c svc h n scheds s).config = c := by
  refine ⟨fun sched s => ⟨receiveCalls_StartPass c svc h sched s, StartPass_config c svc h sched s⟩,
    ?_⟩
  intro n
  induction n with
  | zero => intro scheds s; exact ⟨rfl, rfl⟩
  | succ n ih =>
    intro scheds s
    obtain ⟨ih1, ih2⟩ := ih (fun k => scheds (k + 1)) (StartPass c svc h (scheds 0) s).world
    have hsplit : receiveCalls (events (Start c svc h (n + 1) scheds s).trace) =
        receiveCalls (events (StartPass c svc h (scheds 0) s).trace) ++
          receiveCalls (events (Start c svc h n (fun k => scheds (k + 1))
            (StartPass c svc h (scheds 0) s).world).trace) := by
      simp [Start, StartPass_config, events, receiveCalls]
    refine ⟨?_, ?_⟩
    · rw [hsplit, receiveCalls_StartPass, ih1]
      rfl
    · simp only [Start, StartPass_config]
      exact ih2

@[simp] theorem isLog_Log (l : Level) (a : LogArg) : (Event.Log l a).isLog = true := rfl

@[simp] theorem isLog_HandleMessage (m : Message) (r : error) :
    (Event.HandleMessage m r).isLog = false := rfl

@[simp] theorem isLog_DeleteMessage (p : DeleteMessageInput) (r : error) :
    (Event.DeleteMessage p r).isLog = false := rfl

@[simp] theorem isLog_ReceiveMessage (p : ReceiveMessageInput) (r : ReceiveResult) :
    (Event.ReceiveMessage p r).isLog = false := rfl

theorem withoutLog_cons_log (l : Level) (a : LogArg) (t : Trace) :
    withoutLog ((none, .Log l a) :: t) = withoutLog t := by
  simp [withoutLog]

theorem withoutLog_append (t u : Trace) : withoutLog (t ++ u) = withoutLog t ++ withoutLog u := by
  simp [withoutLog]

theorem sameUpToLog_wrap (b b' : Bool) (err : error) :
    SameUpToLog
      (match err with
        | some e => if b' then Prog.Log .Error (.str e.Error) (.ret ()) else .ret ()
        | none => .ret ())
      (match err with
        | some e => if b then Prog.Log .Error (.str e.Error) (.ret ()) else .ret ()
        | none => .ret ()) := by
  cases err with
  | none => exact .ret
  | some e =>
    cases b <;> cases b'
    · exact .ret
    · exact .logLeft _ _
    · exact .logRight _ _
    · exact .log _ _ _ _ .ret

theorem sameUpToLog_delete {L L' : Type} (c : Config L) (c' : Config L') (m : Message)
    (hurl : c'.QueueURL = c.QueueURL) :
    SameUpToLog
      ((deleteAndReport c' m).bind fun err =>
        match err with
        | some e => if c'.LoggingEnabled then .Log .Error (.str e.Error) (.ret ()) else .ret ()
        | none => .ret ())
      ((deleteAndReport c m).bind fun err =>
        match err with
        | some e => if c.LoggingEnabled then .Log .Error (.str e.Error) (.ret ()) else .ret ()
        | none => .ret ()) := by
  simp only [deleteAndReport, Prog.bind, hurl]
  apply SameUpToLog.delete
  intro r
  cases r with
  | none => exact .log _ _ _ _ .ret
  | some e => exact sameUpToLog_wrap c.LoggingEnabled c'.LoggingEnabled (some e)

/-- The goroutine bodies of two configurations with the same queue URL differ
only in the closing call on the logger. -/
theorem sameUpToLog_goroutine {L L' : Type} (c : Config L) (c' : Config L') (m : Message)
    (hurl : c'.QueueURL = c.QueueURL) : SameUpToLog (goroutine c' m) (goroutine c m) := by
  simp only [goroutine, handleMessage, Prog.bind]
  apply SameUpToLog.handle
  intro r
  rcases r with _ | ⟨event, msg⟩ | text
  · exact sameUpToLog_delete c c' m hurl
  · exact .log _ _ _ _ (sameUpToLog_delete c c' m hurl)
  · exact sameUpToLog_wrap c.LoggingEnabled c'.LoggingEnabled (some (.other text))

/-- One call of two bodies that are the same up to the closing log call: either
both make the same call and get the same answer, or one logs and the other has
returned. -/
theorem sameUpToLog_step (svc : SQS σ) (h : Handler σ) (p q : Prog Unit) (s : σ)
    (hpq : SameUpToLog p q) :
    (p.step svc h s = none ∧ q.step svc h s = none) ∨
    (∃ e p' q' s', p.step svc h s = some (e, p', s') ∧ q.step svc h s = some (e, q', s') ∧
      SameUpToLog p' q') ∨
    (∃ e p', p.step svc h s = some (e, p', s) ∧ e.isLog = true ∧ q.step svc h s = none ∧
      SameUpToLog p' q) ∨
    (∃ e q', q.step svc h s = some (e, q', s) ∧ e.isLog = true ∧ p.step svc h s = none ∧
      SameUpToLog p q') := by
  cases hpq with
  | ret => exact Or.inl ⟨rfl, rfl⟩
  | handle m k k' hk => exact Or.inr (Or.inl ⟨_, _, _, _, rfl, rfl, hk _⟩)
  | delete d k k' hk => exact Or.inr (Or.inl ⟨_, _, _, _, rfl, rfl, hk _⟩)
  | log l a k k' hk => exact Or.inr (Or.inl ⟨_, _, _, _, rfl, rfl, hk⟩)
  | logLeft l a => exact Or.inr (Or.inr (Or.inl ⟨_, _, rfl, rfl, rfl, .ret⟩))
  | logRight l a => exact Or.inr (Or.inr (Or.inr ⟨_, _, rfl, rfl, rfl, .ret⟩))

theorem poolSameUpToLog_set (P Q : List (Prog Unit)) (j : Nat) (p q : Prog Unit)
    (hPQ : PoolSameUpToLog P Q) (hpq : SameUpToLog p q) :
    PoolSameUpToLog (P.set j p) (Q.set j q) := by
  refine ⟨by simp [hPQ.1], ?_⟩
  intro i a b ha hb
  by_cases hji : j = i
  · subst hji
    rw [List.getElem?_set_self'] at ha hb
    cases hP : P[j]? with
    | none => simp [hP] at ha
    | some x =>
      cases hQ : Q[j]? with
      | none => simp [hQ] at hb
      | some y =>
        simp [hP] at ha
        simp [hQ] at hb
        subst ha
        subst hb
        exact hpq
  · rw [List.getElem?_set_ne hji] at ha hb
    exact hPQ.2 i a b ha hb

theorem poolSameUpToLog_get (P Q : List (Prog Unit)) (j : Nat) (hPQ : PoolSameUpToLog P Q) :
    (P[j]? = none ∧ Q[j]? = none) ∨ ∃ p q, P[j]? = some p ∧ Q[j]? = some q ∧ SameUpToLog p q := by
  by_cases hj : j < P.length
  · have hj' : j < Q.length := hPQ.1 ▸ hj
    exact Or.inr ⟨P[j], Q[j], List.getElem?_eq_getElem hj, List.getElem?_eq_getElem hj',
      hPQ.2 j _ _ (List.getElem?_eq_getElem hj) (List.getElem?_eq_getElem hj')⟩
  · have hj' : ¬ j < Q.length := hPQ.1 ▸ hj
    exact Or.inl ⟨List.getElem?_eq_none (Nat.le_of_not_lt hj),
      List.getElem?_eq_none (Nat.le_of_not_lt hj')⟩

theorem set_self_of_getElem? (P : List (Prog Unit)) (j : Nat) (p : Prog Unit)
    (hp : P[j]? = some p) : P.set j p = P := by
  apply List.ext_getElem?
  intro i
  by_cases hji : j = i
  · subst hji
    rw [List.getElem?_set_self', hp]
    rfl
  · rw [List.getElem?_set_ne hji]

/-- Under one schedule, two pools that are the same up to closing log calls make
the same calls other than log calls, in the same order and with the same
answers, and leave the same world. -/
theorem schedule_sameUpToLog (svc : SQS σ) (h : Handler σ) (sched : List Nat)
    (P Q : List (Prog Unit)) (s : σ) (hPQ : PoolSameUpToLog P Q) :
    PoolSameUpToLog (schedule svc h sched P s).1 (schedule svc h sched Q s).1 ∧
    (schedule svc h sched P s).2.1 = (schedule svc h sched Q s).2.1 ∧
    withoutLog (schedule svc h sched P s).2.2 = withoutLog (schedule svc h sched Q s).2.2 := by
  induction sched generalizing P Q s with
  | nil => exact ⟨hPQ, rfl, rfl⟩
  | cons j js ih =>
    rcases poolSameUpToLog_get P Q j hPQ with ⟨hP, hQ⟩ | ⟨p, q, hP, hQ, hpq⟩
    · have e1 : stepAt svc h j P s = none := by simp [stepAt, hP]
      have e2 : stepAt svc h j Q s = none := by simp [stepAt, hQ]
      simp only [schedule, e1, e2]
      exact ih P Q s hPQ
    · rcases sameUpToLog_step svc h p q s hpq with ⟨h1, h2⟩ | ⟨e, p', q', s', h1, h2, h3⟩ |
        ⟨e, p', h1, hlog, h2, h3⟩ | ⟨e, q', h1, hlog, h2, h3⟩
      · have e1 : stepAt svc h j P s = none := by simp [stepAt, hP, h1]
        have e2 : stepAt svc h j Q s = none := by simp [stepAt, hQ, h2]
        simp only [schedule, e1, e2]
        exact ih P Q s hPQ
      · have e1 : stepAt svc h j P s = some (e, P.set j p', s') := by simp [stepAt, hP, h1]
        have e2 : stepAt svc h j Q s = some (e, Q.set j q', s') := by simp [stepAt, hQ, h2]
        simp only [schedule, e1, e2]
        obtain ⟨i1, i2, i3⟩ := ih (P.set j p') (Q.set j q') s' (poolSameUpToLog_set P Q j p' q' hPQ h3)
        refine ⟨i1, i2, ?_⟩
        simp only [withoutLog, List.filter_cons] at i3 ⊢
        rw [i3]
      · have e1 : stepAt svc h j P s = some (e, P.set j p', s) := by simp [stepAt, hP, h1]
        have e2 : stepAt svc h j Q s = none := by simp [stepAt, hQ, h2]
        simp only [schedule, e1, e2]
        have hQ' : PoolSameUpToLog (P.set j p') Q := by
          have := poolSameUpToLog_set P Q j p' q hPQ h3
          rwa [set_self_of_getElem? Q j q hQ] at this
        obtain ⟨i1, i2, i3⟩ := ih (P.set j p') Q s hQ'
        refine ⟨i1, i2, ?_⟩
        simp only [withoutLog, List.filter_cons, hlog] at i3 ⊢
        simpa using i3
      · have e1 : stepAt svc h j Q s = some (e, Q.set j q', s) := by simp [stepAt, hQ, h1]
        have e2 : stepAt svc h j P s = none := by simp [stepAt, hP, h2]
        simp only [schedule, e1, e2]
        have hP' : PoolSameUpToLog P (Q.set j q') := by
          have := poolSameUpToLog_set P Q j p q' hPQ h3
          rwa [set_self_of_getElem? P j p hP] at this
        obtain ⟨i1, i2, i3⟩ := ih P (Q.set j q') s hP'
        refine ⟨i1, i2, ?_⟩
        simp only [withoutLog, List.filter_cons, hlog] at i3 ⊢
        simpa using i3

theorem exec_sameUpToLog (svc : SQS σ) (h : Handler σ) (p q : Prog Unit) (s : σ)
    (hpq : SameUpToLog p q) :
    (p.exec svc h s).2.1 = (q.exec svc h s).2.1 ∧
    (p.exec svc h s).2.2.filter (fun e => !e.isLog) =
      (q.exec svc h s).2.2.filter (fun e => !e.isLog) := by
  induction hpq generalizing s with
  | ret => exact ⟨rfl, rfl⟩
  | handle m k k' _ ih =>
    obtain ⟨i1, i2⟩ := ih (h.HandleMessage m s).1 (h.HandleMessage m s).2
    simp only [Prog.exec]
    exact ⟨i1, by simp [List.filter_cons, i2]⟩
  | delete d k k' _ ih =>
    obtain ⟨i1, i2⟩ := ih (svc.DeleteMessage d s).1 (svc.DeleteMessage d s).2
    simp only [Prog.exec]
    exact ⟨i1, by simp [List.filter_cons, i2]⟩
  | log l a k k' _ ih =>
    obtain ⟨i1, i2⟩ := ih s
    simp only [Prog.exec]
    exact ⟨i1, by simp [List.filter_cons, i2]⟩
  | logLeft l a => exact ⟨rfl, rfl⟩
  | logRight l a => exact ⟨rfl, rfl⟩

theorem withoutLog_map_tag (i : Nat) (es : List Event) :
    withoutLog (es.map (fun e => (some i, e))) =
      (es.filter (fun e => !e.isLog)).map (fun e => (some i, e)) := by
  induction es with
  | nil => rfl
  | cons e es ih =>
    simp only [withoutLog, List.map_cons, List.filter_cons] at ih ⊢
    cases he : e.isLog <;> simp [ih]

theorem drain_sameUpToLog (svc : SQS σ) (h : Handler σ) (P Q : List (Prog Unit)) (i0 : Nat)
    (s : σ) (hPQ : PoolSameUpToLog P Q) :
    (drain svc h i0 P s).1 = (drain svc h i0 Q s).1 ∧
    withoutLog (drain svc h i0 P s).2 = withoutLog (drain svc h i0 Q s).2 := by
  induction P generalizing Q i0 s with
  | nil =>
    cases Q with
    | nil => exact ⟨rfl, rfl⟩
    | cons q qs => simp [PoolSameUpToLog] at hPQ
  | cons p ps ih =>
    cases Q with
    | nil => simp [PoolSameUpToLog] at hPQ
    | cons q qs =>
      have hpq : SameUpToLog p q := hPQ.2 0 p q (by simp) (by simp)
      have hrest : PoolSameUpToLog ps qs := by
        refine ⟨by simpa using hPQ.1, ?_⟩
        intro j a b ha hb
        exact hPQ.2 (j + 1) a b (by simpa using ha) (by simpa using hb)
      obtain ⟨x1, x2⟩ := exec_sameUpToLog svc h p q s hpq
      simp only [drain, withoutLog_append, withoutLog_map_tag]
      rw [x1, x2]
      obtain ⟨i1, i2⟩ := ih qs (i0 + 1) (q.exec svc h s).2.1 hrest
      rw [i1, i2]
      exact ⟨rfl, rfl⟩

/-- Logging does not steer `run`: two configurations with the same queue URL
make, under one schedule, the same calls on the handler and the queue. -/
theorem run_withoutLog {L L' : Type} (c : Config L) (c' : Config L') (svc : SQS σ)
    (h : Handler σ) (messages : List Message) (sched : List Nat) (s : σ)
    (hurl : c'.QueueURL = c.QueueURL) :
    (run c' svc h messages sched s).1 = (run c svc h messages sched s).1 ∧
    withoutLog (run c' svc h messages sched s).2 = withoutLog (run c svc h messages sched s).2 := by
  have hpool : PoolSameUpToLog (messages.map (goroutine c')) (messages.map (goroutine c)) := by
    refine ⟨by simp, ?_⟩
    intro j p q hp hq
    simp only [List.getElem?_map] at hp hq
    cases hm : messages[j]? with
    | none => simp [hm] at hp
    | some m =>
      simp [hm] at hp hq
      subst hp
      subst hq
      exact sameUpToLog_goroutine c c' m hurl
  obtain ⟨a1, a2, a3⟩ := schedule_sameUpToLog svc h sched _ _ s hpool
  obtain ⟨b1, b2⟩ := drain_sameUpToLog svc h _ _ 0
    (schedule svc h sched (messages.map (goroutine c')) s).2.1 a1
  simp only [run]
  rw [withoutLog_cons_log, withoutLog_cons_log, withoutLog_append, withoutLog_append, a3, ← a2]
  exact ⟨b1, by rw [b2]⟩

/-- C10.  Take a pass of `Start` and change nothing but the logger and the value
of `LoggingEnabled`.  Under the same schedule and from the same world, the pass
makes the same calls on the queue and the handler (the same receive request,
handler calls and delete requests, in the same order, with the same answers) and
leaves the same world; and `handleMessage` returns the same value after the same
calls. -/
theorem logging_does_not_steer {L L' : Type} (c : Config L) (log : L') (enabled : Bool)
    (svc : SQS σ) (h : Handler σ) (sched : List Nat) (s : σ) (m : Message) :
    withoutLog (StartPass (c.withLogging log enabled) svc h sched s).trace =
      withoutLog (StartPass c svc h sched s).trace ∧
    (StartPass (c.withLogging log enabled) svc h sched s).world =
      (StartPass c svc h sched s).world ∧
    ((handleMessage (c.withLogging log enabled) m).exec svc h s).1 =
      ((handleMessage c m).exec svc h s).1 ∧
    ((handleMessage (c.withLogging log enabled) m).exec svc h s).2.2 =
      ((handleMessage c m).exec svc h s).2.2 := by
  refine ⟨?_, ?_, rfl, rfl⟩
  · have hparams : receiveParams (c.withLogging log enabled) = receiveParams c := rfl
    cases hr : (svc.ReceiveMessage (receiveParams c) s).1 with
    | failed err => simp [StartPass, hparams, hr]
    | ok resp =>
      by_cases hlen : resp.Messages.length > 0
      · obtain ⟨-, r2⟩ := run_withoutLog c (c.withLogging log enabled) svc h resp.Messages sched
          (svc.ReceiveMessage (receiveParams c) s).2 rfl
        simp only [StartPass, hparams, hr, hlen, if_true]
        simp only [withoutLog, List.filter_cons] at r2 ⊢
        rw [r2]
      · simp [StartPass, hparams, hr, hlen]
  · have hparams : receiveParams (c.withLogging log enabled) = receiveParams c := rfl
    cases hr : (svc.ReceiveMessage (receiveParams c) s).1 with
    | failed err => simp [StartPass, hparams, hr]
    | ok resp =>
      by_cases hlen : resp.Messages.length > 0
      · obtain ⟨r1, -⟩ := run_withoutLog c (c.withLogging log enabled) svc h resp.Messages sched
          (svc.ReceiveMessage (receiveParams c) s).2 rfl
        simp only [StartPass, hparams, hr, hlen, if_true]
        exact r1
      · simp [StartPass, hparams, hr, hlen]

end Claims

end Worker
